import Mathlib

/-!
# Verification of the dsx-exchange-consumer leak-event health-state processor

Shallow embedding of `crates/dsx-exchange-consumer` (files `messages.rs`,
`api_client.rs`, `health_updater.rs`): the message model, the correlation
cache pair, the event processor and the report builder, together with
theorems settling the spec's testable properties.

Caches are modelled as association lists with first-match lookup; a moka
insert is modelled by prepending (observationally the same map).  Time-based
eviction is not modelled: an expired entry behaves exactly as an absent one,
so hypotheses of the form `cacheGet … = none` cover both "never written" and
"expired".  The downstream sink is modelled by its success behaviour
(`SinkCall → Bool`) plus the trace of calls attempted.
-/

namespace DsxConsumer

/-- From `messages.rs`: point type identifier for leak detection events. -/
inductive LeakPointType where
  | LeakDetectRack
  | LeakSensorFaultRack
  | LeakDetectRackTray
deriving DecidableEq

/-- From `messages.rs`, `LeakPointType::probe_id`: the health probe id (a
nonempty string always parses as a probe id, so `parse().expect(..)` is the
identity on the string). -/
def LeakPointType.probe_id : LeakPointType → String
  | .LeakDetectRack => "BmsLeakDetectRack"
  | .LeakSensorFaultRack => "BmsLeakSensorFaultRack"
  | .LeakDetectRackTray => "BmsLeakDetectRackTray"

/-- From `messages.rs`, `LeakPointType::description`. -/
def LeakPointType.description : LeakPointType → String
  | .LeakDetectRack => "Leak detected"
  | .LeakSensorFaultRack => "Leak sensor fault"
  | .LeakDetectRackTray => "Rack tray leak detected"

/-- From `messages.rs`: fault value from BMS points. -/
inductive FaultValue where
  | Clear
  | Faulting
deriving DecidableEq

/-- A numeric wire value handed to the `FaultValue` deserializer: serde
dispatches non-negative integers to `visit_u64` and floats to `visit_f64`.
The float payload is modelled exactly (as a rational); every value the spec
discusses (0, 1, 2, 0.5) is exactly representable. -/
inductive WireNumber where
  | uint (n : Nat)
  | float (q : Rat)
deriving DecidableEq

/-- From `messages.rs`, `impl Deserialize for FaultValue` (`BinaryValueVisitor`):
`visit_u64` accepts 0/1, `visit_f64` accepts 0.0/1.0, anything else is a
decode error surfaced to the caller. -/
def FaultValue.deserialize : WireNumber → Except String FaultValue
  | .uint 0 => .ok .Clear
  | .uint 1 => .ok .Faulting
  | .uint n => .error ("invalid binary value: expected 0 or 1, got " ++ toString n)
  | .float q =>
    if q = 0 then .ok .Clear
    else if q = 1 then .ok .Faulting
    else .error ("invalid binary value: expected 0 or 1, got " ++ toString q)

/-- From `messages.rs`, `ValueMessage`: value plus unix-seconds timestamp. -/
structure ValueMessage where
  value : FaultValue
  timestamp : Int
deriving DecidableEq

/-- From `messages.rs`, `LeakMetadata`. -/
structure LeakMetadata where
  point_type : String
  object_type : String
  rack_name : String
  rack_id : String
deriving DecidableEq

/-- From `messages.rs`, `LeakMetadata::is_supported_leak_type`. -/
def LeakMetadata.is_supported_leak_type (m : LeakMetadata) : Bool :=
  m.point_type == "LeakDetectRack" || m.point_type == "LeakSensorFaultRack" ||
    m.point_type == "LeakDetectRackTray"

/-- From `messages.rs`, `LeakMetadata::leak_point_type`. -/
def LeakMetadata.leak_point_type (m : LeakMetadata) : Option LeakPointType :=
  if m.point_type = "LeakDetectRack" then some .LeakDetectRack
  else if m.point_type = "LeakSensorFaultRack" then some .LeakSensorFaultRack
  else if m.point_type = "LeakDetectRackTray" then some .LeakDetectRackTray
  else none

/-- From `api_client.rs`, `HEALTH_REPORT_SOURCE`. -/
def HEALTH_REPORT_SOURCE : String := "dsx-exchange-consumer"

/-- Modelled from the spec: the external health-report library's alert
classification type is not part of this repository; the spec fixes the
classification set used here at `{PreventAllocations, SensorCritical,
Hardware}` and the repository's own tests pin those `as_str` spellings. -/
inductive HealthAlertClassification where
  | PreventAllocations
  | SensorCritical
  | Hardware
deriving DecidableEq

/-- The call `HealthAlertClassification::prevent_allocations()` of the external
health-report library, modelled from the spec. -/
def HealthAlertClassification.prevent_allocations : HealthAlertClassification :=
  .PreventAllocations

/-- The call `HealthAlertClassification::sensor_critical()`, modelled from the spec. -/
def HealthAlertClassification.sensor_critical : HealthAlertClassification :=
  .SensorCritical

/-- The call `HealthAlertClassification::hardware()`, modelled from the spec. -/
def HealthAlertClassification.hardware : HealthAlertClassification :=
  .Hardware

/-- Modelled from the spec: the external health-report library's
`HealthProbeAlert` record, with the fields the consumer fills in
(`build_leak_alert_report`).  Timestamps are abstract instants (`Nat`). -/
structure HealthProbeAlert where
  id : String
  target : Option String
  in_alert_since : Option Nat
  message : String
  tenant_message : Option String
  classifications : List HealthAlertClassification
deriving DecidableEq

/-- Modelled from the spec: the external health-report library's
`HealthReport` record: `{source, observed_at, successes, alerts}`; the
success entries are opaque to this consumer (it only ever sends `[]`),
modelled as strings. -/
structure HealthReport where
  source : String
  observed_at : Option Nat
  successes : List String
  alerts : List HealthProbeAlert
deriving DecidableEq

/-- From `health_updater.rs`, `build_leak_alert_report`.  The two `Utc::now()`
calls are modelled by the single ambient instant `now`. -/
def build_leak_alert_report (now : Nat) (metadata : LeakMetadata)
    (leak_type : LeakPointType) : HealthReport :=
  let alert : HealthProbeAlert :=
    { id := leak_type.probe_id
      target := some metadata.rack_id
      in_alert_since := some now
      message := leak_type.description ++ " on rack " ++ metadata.rack_name ++
        " (" ++ metadata.rack_id ++ ")"
      tenant_message := none
      classifications :=
        [HealthAlertClassification.prevent_allocations,
         HealthAlertClassification.sensor_critical,
         HealthAlertClassification.hardware] }
  { source := HEALTH_REPORT_SOURCE
    observed_at := some now
    successes := []
    alerts := [alert] }

/-! ## Topic-to-path extraction

Rust's `str::strip_prefix` / `str::strip_suffix` embedded on character
lists: `strip_prefix(s, p) = Some t` iff `s = p ++ t`, and symmetrically for
the suffix version. -/

/-- Rust `str::strip_prefix` on character lists (second argument is the
pattern to remove from the front). -/
def stripPreL : List Char → List Char → Option (List Char)
  | s, [] => some s
  | [], _ :: _ => none
  | a :: s, b :: p => if a = b then stripPreL s p else none

/-- Rust `str::strip_suffix` on character lists, via the reversal of
`stripPreL`. -/
def stripSufL (s pat : List Char) : Option (List Char) :=
  (stripPreL s.reverse pat.reverse).map List.reverse

/-- Rust `str::strip_prefix` on strings. -/
def stripPreS (s pat : String) : Option String :=
  (stripPreL s.data pat.data).map String.mk

/-- Rust `str::strip_suffix` on strings. -/
def stripSufS (s pat : String) : Option String :=
  (stripSufL s.data pat.data).map String.mk

/-- From `health_updater.rs`, `extract_point_path`:
`topic.strip_suffix("/Metadata").or_else(|| topic.strip_suffix("/Value")).and_then(|s| s.strip_prefix(prefix))`. -/
def extract_point_path (topic pfx : String) : Option String :=
  match stripSufS topic "/Metadata" with
  | some s => stripPreS s pfx
  | none =>
    match stripSufS topic "/Value" with
    | some s => stripPreS s pfx
    | none => none

/-! ## The correlation cache pair

A moka `Cache<String, V>` restricted to the operations the processor uses
(`get`, unconditional `insert`): an association list with first-match
lookup, insertion by prepending. -/

/-- Moka `Cache::get`. -/
def cacheGet {V : Type} (c : List (String × V)) (k : String) : Option V :=
  c.lookup k

/-- Moka `Cache::insert` (overwrite observable through `cacheGet`). -/
def cacheInsert {V : Type} (c : List (String × V)) (k : String) (v : V) :
    List (String × V) :=
  (k, v) :: c

/-- The processor's mutable state: the metadata cache and the value
state/dedup cache of `HealthUpdater`. -/
structure ProcState where
  metadata_cache : List (String × LeakMetadata)
  value_state_cache : List (String × FaultValue)
deriving DecidableEq

/-- From `health_updater.rs`, `HealthUpdater::new`: both caches start empty. -/
def initState : ProcState := ⟨[], []⟩

/-- A call attempted on the downstream `RackHealthReportSink`. -/
inductive SinkCall where
  | insert (rack_id : String) (report : HealthReport)
  | remove (rack_id : String)
deriving DecidableEq

/-- The downstream sink modelled by its success behaviour: `true` means the
call returns `Ok(())`, `false` means it returns an error. -/
def Sink : Type := SinkCall → Bool

/-- Which branch of `handle_value_message` resolved a value message. -/
inductive MsgOutcome where
  | noPath
  | noMetadata
  | unsupportedCached
  | dedupSkipped
  | processed
  | apiFailed
deriving DecidableEq

/-- Result of handling one value message: the successor state, the trace of
downstream calls attempted, and the branch taken. -/
structure StepOut where
  state : ProcState
  calls : List SinkCall
  outcome : MsgOutcome
deriving DecidableEq

/-- From `health_updater.rs`, `HealthUpdater::handle_metadata_message`: drop
unsupported point types before the cache, drop unparseable topics, otherwise
write through to the metadata cache. -/
def handle_metadata_message (pfx : String) (st : ProcState) (topic : String)
    (metadata : LeakMetadata) : ProcState :=
  if ¬ metadata.is_supported_leak_type then st
  else
    match extract_point_path topic pfx with
    | some point_path =>
      { st with metadata_cache := cacheInsert st.metadata_cache point_path metadata }
    | none => st

/-- From `health_updater.rs`, `HealthUpdater::handle_value_message`: extract the
path, look up metadata, derive the leak point type, then run the
serialized-conditional-update on the value state cache: dedup against the
cached entry (`Op::Nop`), otherwise call the sink (`insert` on `Faulting`,
`remove` on `Clear`) and commit the value (`Op::Put`) only on success. -/
def handle_value_message (pfx : String) (sink : Sink) (now : Nat)
    (st : ProcState) (topic : String) (msg : ValueMessage) : StepOut :=
  match extract_point_path topic pfx with
  | none => ⟨st, [], .noPath⟩
  | some point_path =>
    match cacheGet st.metadata_cache point_path with
    | none => ⟨st, [], .noMetadata⟩
    | some metadata =>
      match metadata.leak_point_type with
      | none => ⟨st, [], .unsupportedCached⟩
      | some leak_type =>
        let value := msg.value
        if cacheGet st.value_state_cache point_path = some value then
          ⟨st, [], .dedupSkipped⟩
        else
          let call :=
            if value = FaultValue.Faulting then
              SinkCall.insert metadata.rack_id
                (build_leak_alert_report now metadata leak_type)
            else
              SinkCall.remove metadata.rack_id
          if sink call then
            ⟨{ st with
                value_state_cache := cacheInsert st.value_state_cache point_path value },
              [call], .processed⟩
          else
            ⟨st, [call], .apiFailed⟩

/-- Result of a sequential run over several value messages. -/
structure RunOut where
  state : ProcState
  calls : List SinkCall
  outcomes : List MsgOutcome
deriving DecidableEq

/-- Sequential processing of a list of value messages (the `run` loop of
`HealthUpdater` restricted to `MqttMessage::Value`), accumulating the trace
of downstream calls and per-message outcomes. -/
def processValues (pfx : String) (sink : Sink) (now : Nat) :
    ProcState → List (String × ValueMessage) → RunOut
  | st, [] => ⟨st, [], []⟩
  | st, (topic, m) :: rest =>
    let r := handle_value_message pfx sink now st topic m
    let rr := processValues pfx sink now r.state rest
    ⟨rr.state, r.calls ++ rr.calls, r.outcome :: rr.outcomes⟩

/-- An inbound MQTT message, as demultiplexed by the transport layer
(`mqtt_consumer::MqttMessage`). -/
inductive MqttMessage where
  | Metadata (topic : String) (metadata : LeakMetadata)
  | Value (topic : String) (value : ValueMessage)

/-- State evolution of the `run` loop over an arbitrary inbound stream. -/
def runState (pfx : String) (sink : Sink) (now : Nat) :
    ProcState → List MqttMessage → ProcState
  | st, [] => st
  | st, .Metadata topic md :: rest =>
    runState pfx sink now (handle_metadata_message pfx st topic md) rest
  | st, .Value topic m :: rest =>
    runState pfx sink now (handle_value_message pfx sink now st topic m).state rest

/-! ## Lemmas: path extraction -/

theorem stripPreL_eq_some {s p t : List Char} :
    stripPreL s p = some t ↔ s = p ++ t := by
  induction p generalizing s with
  | nil => simp [stripPreL]
  | cons b p ih =>
    cases s with
    | nil => simp [stripPreL]
    | cons a s =>
      by_cases hab : a = b
      · subst hab
        simp [stripPreL, ih]
      · simp [stripPreL, hab]

theorem stripSufL_eq_some {s pat t : List Char} :
    stripSufL s pat = some t ↔ s = t ++ pat := by
  unfold stripSufL
  rw [Option.map_eq_some']
  constructor
  · rintro ⟨u, hu, rfl⟩
    rw [stripPreL_eq_some] at hu
    have := congrArg List.reverse hu
    simpa using this
  · rintro rfl
    refine ⟨t.reverse, ?_, by simp⟩
    rw [stripPreL_eq_some]
    simp

theorem stripPreS_eq_some {s pat t : String} :
    stripPreS s pat = some t ↔ s = pat ++ t := by
  unfold stripPreS
  rw [Option.map_eq_some']
  constructor
  · rintro ⟨u, hu, rfl⟩
    rw [stripPreL_eq_some] at hu
    apply String.ext
    simpa [String.data_append] using hu
  · rintro rfl
    exact ⟨t.data, by rw [stripPreL_eq_some]; simp [String.data_append], rfl⟩

theorem stripSufS_eq_some {s pat t : String} :
    stripSufS s pat = some t ↔ s = t ++ pat := by
  unfold stripSufS
  rw [Option.map_eq_some']
  constructor
  · rintro ⟨u, hu, rfl⟩
    rw [stripSufL_eq_some] at hu
    apply String.ext
    simpa [String.data_append] using hu
  · rintro rfl
    exact ⟨t.data, by rw [stripSufL_eq_some]; simp [String.data_append], rfl⟩

/-- Two nonempty suffixes with different last characters cannot both
terminate the same string: a string of the shape `t ++ other` has no `pat`
suffix to strip. -/
theorem stripSufS_eq_none_of_last_ne {s pat t other : String} {c1 c2 : Char}
    (h : s = t ++ other) (hother : other.data.getLast? = some c1)
    (hpat : pat.data.getLast? = some c2) (hne : c1 ≠ c2) :
    stripSufS s pat = none := by
  cases hp : stripSufS s pat with
  | none => rfl
  | some u =>
    exfalso
    rw [stripSufS_eq_some] at hp
    have h1 : t.data ++ other.data = u.data ++ pat.data := by
      rw [← String.data_append, ← String.data_append, ← h, ← hp]
    have h2 := congrArg List.getLast? h1
    rw [List.getLast?_append, List.getLast?_append, hother, hpat] at h2
    simp only [Option.or_some] at h2
    exact hne (by simpa using h2)

theorem extract_point_path_eq_some {topic pfx p : String} :
    extract_point_path topic pfx = some p ↔
      topic = pfx ++ p ++ "/Metadata" ∨ topic = pfx ++ p ++ "/Value" := by
  constructor
  · intro h
    unfold extract_point_path at h
    cases h1 : stripSufS topic "/Metadata" with
    | some s =>
      rw [h1] at h
      rw [stripPreS_eq_some] at h
      left
      rw [stripSufS_eq_some] at h1
      rw [h1, h, String.append_assoc]
    | none =>
      rw [h1] at h
      cases h2 : stripSufS topic "/Value" with
      | some s =>
        rw [h2] at h
        rw [stripPreS_eq_some] at h
        right
        rw [stripSufS_eq_some] at h2
        rw [h2, h, String.append_assoc]
      | none => rw [h2] at h; exact absurd h (by simp)
  · intro h
    unfold extract_point_path
    rcases h with h | h
    · have h1 : stripSufS topic "/Metadata" = some (pfx ++ p) := by
        rw [stripSufS_eq_some, h, String.append_assoc]
      rw [h1, stripPreS_eq_some]
    · have h1 : stripSufS topic "/Metadata" = none :=
        stripSufS_eq_none_of_last_ne h
          (by decide : "/Value".data.getLast? = some 'e')
          (by decide : "/Metadata".data.getLast? = some 'a') (by decide)
      have h2 : stripSufS topic "/Value" = some (pfx ++ p) := by
        rw [stripSufS_eq_some, h, String.append_assoc]
      rw [h1, h2, stripPreS_eq_some]

/-! ## Lemmas: caches and handler branches -/

theorem cacheGet_insert {V : Type} (c : List (String × V)) (k k' : String) (v : V) :
    cacheGet (cacheInsert c k v) k' = if k' = k then some v else cacheGet c k' := by
  by_cases h : k' = k
  · subst h
    simp [cacheGet, cacheInsert, List.lookup]
  · have hb : (k' == k) = false := beq_eq_false_iff_ne.mpr h
    simp [cacheGet, cacheInsert, List.lookup, hb, h]

theorem cacheGet_insert_self {V : Type} (c : List (String × V)) (k : String) (v : V) :
    cacheGet (cacheInsert c k v) k = some v := by
  simp [cacheGet_insert]

/-- The downstream call `handle_value_message` attempts for a given value
(the `let call` of the compute closure). -/
def sinkCallFor (now : Nat) (md : LeakMetadata) (lt : LeakPointType)
    (v : FaultValue) : SinkCall :=
  if v = FaultValue.Faulting then
    SinkCall.insert md.rack_id (build_leak_alert_report now md lt)
  else
    SinkCall.remove md.rack_id

theorem handle_value_noPath {pfx topic : String} {sink : Sink} {now : Nat}
    {st : ProcState} {msg : ValueMessage}
    (hE : extract_point_path topic pfx = none) :
    handle_value_message pfx sink now st topic msg = ⟨st, [], .noPath⟩ := by
  simp only [handle_value_message, hE]

theorem handle_value_noMetadata {pfx topic path : String} {sink : Sink}
    {now : Nat} {st : ProcState} {msg : ValueMessage}
    (hE : extract_point_path topic pfx = some path)
    (hm : cacheGet st.metadata_cache path = none) :
    handle_value_message pfx sink now st topic msg = ⟨st, [], .noMetadata⟩ := by
  simp only [handle_value_message, hE, hm]

theorem handle_value_unsupported {pfx topic path : String} {sink : Sink}
    {now : Nat} {st : ProcState} {msg : ValueMessage} {md : LeakMetadata}
    (hE : extract_point_path topic pfx = some path)
    (hm : cacheGet st.metadata_cache path = some md)
    (hlt : md.leak_point_type = none) :
    handle_value_message pfx sink now st topic msg = ⟨st, [], .unsupportedCached⟩ := by
  simp only [handle_value_message, hE, hm, hlt]

theorem handle_value_dedup {pfx topic path : String} {sink : Sink} {now : Nat}
    {st : ProcState} {msg : ValueMessage} {md : LeakMetadata} {lt : LeakPointType}
    (hE : extract_point_path topic pfx = some path)
    (hm : cacheGet st.metadata_cache path = some md)
    (hlt : md.leak_point_type = some lt)
    (hv : cacheGet st.value_state_cache path = some msg.value) :
    handle_value_message pfx sink now st topic msg = ⟨st, [], .dedupSkipped⟩ := by
  simp only [handle_value_message, hE, hm, hlt]
  rw [if_pos hv]

theorem handle_value_success {pfx topic path : String} {sink : Sink} {now : Nat}
    {st : ProcState} {msg : ValueMessage} {md : LeakMetadata} {lt : LeakPointType}
    (hE : extract_point_path topic pfx = some path)
    (hm : cacheGet st.metadata_cache path = some md)
    (hlt : md.leak_point_type = some lt)
    (hv : cacheGet st.value_state_cache path ≠ some msg.value)
    (hs : sink (sinkCallFor now md lt msg.value) = true) :
    handle_value_message pfx sink now st topic msg =
      ⟨{ st with value_state_cache := cacheInsert st.value_state_cache path msg.value },
        [sinkCallFor now md lt msg.value], .processed⟩ := by
  simp only [sinkCallFor] at hs ⊢
  simp only [handle_value_message, hE, hm, hlt]
  rw [if_neg hv, if_pos hs]

theorem handle_value_failure {pfx topic path : String} {sink : Sink} {now : Nat}
    {st : ProcState} {msg : ValueMessage} {md : LeakMetadata} {lt : LeakPointType}
    (hE : extract_point_path topic pfx = some path)
    (hm : cacheGet st.metadata_cache path = some md)
    (hlt : md.leak_point_type = some lt)
    (hv : cacheGet st.value_state_cache path ≠ some msg.value)
    (hs : sink (sinkCallFor now md lt msg.value) = false) :
    handle_value_message pfx sink now st topic msg =
      ⟨st, [sinkCallFor now md lt msg.value], .apiFailed⟩ := by
  simp only [sinkCallFor] at hs ⊢
  simp only [handle_value_message, hE, hm, hlt]
  rw [if_neg hv, if_neg (by simp [hs])]

/-- A value message never touches the metadata cache. -/
theorem handle_value_metadata_cache (pfx : String) (sink : Sink) (now : Nat)
    (st : ProcState) (topic : String) (msg : ValueMessage) :
    (handle_value_message pfx sink now st topic msg).state.metadata_cache =
      st.metadata_cache := by
  rcases hE : extract_point_path topic pfx with _ | path
  · rw [handle_value_noPath hE]
  · rcases hm : cacheGet st.metadata_cache path with _ | md
    · rw [handle_value_noMetadata hE hm]
    · rcases hlt : md.leak_point_type with _ | lt
      · rw [handle_value_unsupported hE hm hlt]
      · by_cases hv : cacheGet st.value_state_cache path = some msg.value
        · rw [handle_value_dedup hE hm hlt hv]
        · by_cases hs : sink (sinkCallFor now md lt msg.value) = true
          · rw [handle_value_success hE hm hlt hv hs]
          · rw [handle_value_failure hE hm hlt hv (by simpa using hs)]

/-! ## Claims -/

/-- C5: a value message whose extracted path has no metadata cache entry
(never written, or expired — an expired entry is modelled as absent)
produces zero downstream sink calls and leaves the whole state unchanged;
the same holds when no path can be extracted from the topic. -/
theorem no_metadata_law (pfx topic : String) (sink : Sink) (now : Nat)
    (st : ProcState) (msg : ValueMessage) :
    (∀ path, extract_point_path topic pfx = some path →
      cacheGet st.metadata_cache path = none →
      handle_value_message pfx sink now st topic msg = ⟨st, [], .noMetadata⟩) ∧
    (extract_point_path topic pfx = none →
      handle_value_message pfx sink now st topic msg = ⟨st, [], .noPath⟩) :=
  ⟨fun _ hE hm => handle_value_noMetadata hE hm, fun hE => handle_value_noPath hE⟩

theorem no_metadata_law_witness :
    handle_value_message "cronus/v1/" (fun _ => true) 0 initState
      "cronus/v1/site/rack/point/Value" ⟨.Faulting, 0⟩ =
      ⟨initState, [], .noMetadata⟩ :=
  (no_metadata_law "cronus/v1/" "cronus/v1/site/rack/point/Value" (fun _ => true)
    0 initState ⟨.Faulting, 0⟩).1 "site/rack/point" (by decide) (by decide)

/-- C4: a metadata message with an unsupported `point_type` is never written
to the metadata cache — the state is exactly as if the message had not
arrived — so if the path had no entry before, it has none afterwards and a
subsequent value message for it makes zero downstream calls. -/
theorem unsupported_type_law (pfx topic : String) (st : ProcState)
    (md : LeakMetadata) (h : md.is_supported_leak_type = false) :
    handle_metadata_message pfx st topic md = st ∧
    (∀ (sink : Sink) (now : Nat) (topic2 path : String) (msg : ValueMessage),
      extract_point_path topic2 pfx = some path →
      cacheGet st.metadata_cache path = none →
      cacheGet (handle_metadata_message pfx st topic md).metadata_cache path = none ∧
      handle_value_message pfx sink now (handle_metadata_message pfx st topic md)
        topic2 msg = ⟨st, [], .noMetadata⟩) := by
  have h1 : handle_metadata_message pfx st topic md = st := by
    simp [handle_metadata_message, h]
  refine ⟨h1, fun sink now topic2 path msg hE hm => ?_⟩
  rw [h1]
  exact ⟨hm, handle_value_noMetadata hE hm⟩

theorem unsupported_type_law_witness :
    handle_metadata_message "cronus/v1/" initState
      "cronus/v1/site/rack/point/Metadata"
      ⟨"UnsupportedType", "Rack", "Rack-rack-001", "rack-001"⟩ = initState ∧
    handle_value_message "cronus/v1/" (fun _ => true) 0
      (handle_metadata_message "cronus/v1/" initState
        "cronus/v1/site/rack/point/Metadata"
        ⟨"UnsupportedType", "Rack", "Rack-rack-001", "rack-001"⟩)
      "cronus/v1/site/rack/point/Value" ⟨.Faulting, 0⟩ =
      ⟨initState, [], .noMetadata⟩ := by
  have h := unsupported_type_law "cronus/v1/" "cronus/v1/site/rack/point/Metadata"
    initState ⟨"UnsupportedType", "Rack", "Rack-rack-001", "rack-001"⟩ (by decide)
  exact ⟨h.1, (h.2 (fun _ => true) 0 "cronus/v1/site/rack/point/Value"
    "site/rack/point" ⟨.Faulting, 0⟩ (by decide) (by decide)).2⟩

/-- C2: if the downstream call made while processing a value message fails,
nothing is committed — the whole state (in particular the dedup entry for
that path) is exactly as beforehand, absent if it was absent — and a repeat
of the same `FaultValue` afterwards triggers another downstream call rather
than being deduplicated. -/
theorem failure_no_commit_law (pfx topic path : String) (sink sink2 : Sink)
    (now now2 : Nat) (st : ProcState) (msg : ValueMessage) (md : LeakMetadata)
    (lt : LeakPointType)
    (hE : extract_point_path topic pfx = some path)
    (hm : cacheGet st.metadata_cache path = some md)
    (hlt : md.leak_point_type = some lt)
    (hv : cacheGet st.value_state_cache path ≠ some msg.value)
    (hfail : ∀ c, sink c = false)
    (hok : ∀ c, sink2 c = true) :
    (handle_value_message pfx sink now st topic msg).state = st ∧
    (handle_value_message pfx sink now st topic msg).calls =
      [sinkCallFor now md lt msg.value] ∧
    (handle_value_message pfx sink now st topic msg).outcome = .apiFailed ∧
    handle_value_message pfx sink2 now2
        (handle_value_message pfx sink now st topic msg).state topic msg =
      ⟨{ st with value_state_cache := cacheInsert st.value_state_cache path msg.value },
        [sinkCallFor now2 md lt msg.value], .processed⟩ := by
  have h1 := @handle_value_failure pfx topic path sink now st msg md lt hE hm
    hlt hv (hfail (sinkCallFor now md lt msg.value))
  rw [h1]
  exact ⟨rfl, rfl, rfl, handle_value_success hE hm hlt hv
    (hok (sinkCallFor now2 md lt msg.value))⟩

theorem failure_no_commit_law_witness :
    (handle_value_message "cronus/v1/" (fun _ => false) 0
      ⟨[("site/rack/point", ⟨"LeakDetectRack", "Rack", "Rack-rack-001", "rack-001"⟩)], []⟩
      "cronus/v1/site/rack/point/Value" ⟨.Faulting, 0⟩).state =
      ⟨[("site/rack/point", ⟨"LeakDetectRack", "Rack", "Rack-rack-001", "rack-001"⟩)], []⟩ :=
  (failure_no_commit_law "cronus/v1/" "cronus/v1/site/rack/point/Value"
    "site/rack/point" (fun _ => false) (fun _ => true) 0 0
    ⟨[("site/rack/point", ⟨"LeakDetectRack", "Rack", "Rack-rack-001", "rack-001"⟩)], []⟩
    ⟨.Faulting, 0⟩ ⟨"LeakDetectRack", "Rack", "Rack-rack-001", "rack-001"⟩
    .LeakDetectRack (by decide) (by decide) (by decide) (by decide)
    (fun _ => rfl) (fun _ => rfl)).1

/-- C8: for every metadata and leak point type the report builder produces
exactly one alert, whose id is the leak type's stable probe id, whose target
is the metadata's rack id, whose message is
`"<description> on rack <rack_name> (<rack_id>)"` and whose classifications
are exactly {PreventAllocations, SensorCritical, Hardware}; the report's
successes are empty and its source is `"dsx-exchange-consumer"`. -/
theorem report_builder_law (now : Nat) (md : LeakMetadata) (lt : LeakPointType) :
    (build_leak_alert_report now md lt).alerts =
      [{ id := lt.probe_id
         target := some md.rack_id
         in_alert_since := some now
         message := lt.description ++ " on rack " ++ md.rack_name ++
           " (" ++ md.rack_id ++ ")"
         tenant_message := none
         classifications := [.PreventAllocations, .SensorCritical, .Hardware] }] ∧
    (build_leak_alert_report now md lt).successes = [] ∧
    (build_leak_alert_report now md lt).source = "dsx-exchange-consumer" :=
  ⟨rfl, rfl, rfl⟩

/-- Replicated identical value messages from a state whose dedup cache
already holds that value are all dedup-skipped: no call, no state change. -/
theorem processValues_replicate_dedup {pfx topic path : String} {sink : Sink}
    {now : Nat} {st : ProcState} {msg : ValueMessage} {md : LeakMetadata}
    {lt : LeakPointType} (n : Nat)
    (hE : extract_point_path topic pfx = some path)
    (hm : cacheGet st.metadata_cache path = some md)
    (hlt : md.leak_point_type = some lt)
    (hv : cacheGet st.value_state_cache path = some msg.value) :
    processValues pfx sink now st (List.replicate n (topic, msg)) =
      ⟨st, [], List.replicate n .dedupSkipped⟩ := by
  induction n with
  | zero => rfl
  | succ n ih =>
    rw [List.replicate_succ]
    simp only [processValues]
    rw [handle_value_dedup hE hm hlt hv]
    rw [ih]
    simp [List.replicate_succ]

/-- C1: with supported metadata cached for a path and a succeeding sink,
processing N+1 consecutive value messages carrying the same (not yet
cached) `FaultValue` results in exactly one downstream sink call, made for
the first message; the second through (N+1)-th messages are dedup-skipped
and leave the state exactly as it was after the first. -/
theorem dedup_law (pfx topic path : String) (sink : Sink) (now : Nat)
    (st : ProcState) (msg : ValueMessage) (md : LeakMetadata)
    (lt : LeakPointType) (n : Nat)
    (hok : ∀ c, sink c = true)
    (hE : extract_point_path topic pfx = some path)
    (hm : cacheGet st.metadata_cache path = some md)
    (hlt : md.leak_point_type = some lt)
    (hv : cacheGet st.value_state_cache path ≠ some msg.value) :
    processValues pfx sink now st (List.replicate (n + 1) (topic, msg)) =
      ⟨{ st with value_state_cache := cacheInsert st.value_state_cache path msg.value },
        [sinkCallFor now md lt msg.value],
        .processed :: List.replicate n .dedupSkipped⟩ := by
  rw [List.replicate_succ]
  simp only [processValues]
  rw [handle_value_success hE hm hlt hv (hok (sinkCallFor now md lt msg.value))]
  dsimp only
  set st1 : ProcState :=
    { st with value_state_cache := cacheInsert st.value_state_cache path msg.value }
    with hst1
  have hm2 : cacheGet st1.metadata_cache path = some md := hm
  have hv2 : cacheGet st1.value_state_cache path = some msg.value :=
    cacheGet_insert_self _ _ _
  rw [processValues_replicate_dedup n hE hm2 hlt hv2]
  simp

theorem dedup_law_witness :
    processValues "cronus/v1/" (fun _ => true) 0
      ⟨[("site/rack/point", ⟨"LeakDetectRack", "Rack", "Rack-rack-001", "rack-001"⟩)], []⟩
      (List.replicate 2 ("cronus/v1/site/rack/point/Value", ⟨.Faulting, 0⟩)) =
      ⟨⟨[("site/rack/point", ⟨"LeakDetectRack", "Rack", "Rack-rack-001", "rack-001"⟩)],
         [("site/rack/point", .Faulting)]⟩,
        [sinkCallFor 0 ⟨"LeakDetectRack", "Rack", "Rack-rack-001", "rack-001"⟩
          .LeakDetectRack .Faulting],
        [.processed, .dedupSkipped]⟩ :=
  dedup_law "cronus/v1/" "cronus/v1/site/rack/point/Value" "site/rack/point"
    (fun _ => true) 0
    ⟨[("site/rack/point", ⟨"LeakDetectRack", "Rack", "Rack-rack-001", "rack-001"⟩)], []⟩
    ⟨.Faulting, 0⟩ ⟨"LeakDetectRack", "Rack", "Rack-rack-001", "rack-001"⟩
    .LeakDetectRack 1 (fun _ => rfl) (by decide) (by decide) (by decide) (by decide)

/-- C3: with supported metadata cached, no prior dedup entry and an
always-succeeding sink, the value sequence Faulting, Clear, Faulting for one
path produces exactly the calls insert, remove, insert in that order, each
targeting the cached metadata's rack id — insert exactly for the
non-deduplicated `Faulting` values, remove exactly for the `Clear` one. -/
theorem transition_law (pfx topic path : String) (sink : Sink) (now : Nat)
    (st : ProcState) (md : LeakMetadata) (lt : LeakPointType) (t1 t2 t3 : Int)
    (hok : ∀ c, sink c = true)
    (hE : extract_point_path topic pfx = some path)
    (hm : cacheGet st.metadata_cache path = some md)
    (hlt : md.leak_point_type = some lt)
    (hv0 : cacheGet st.value_state_cache path = none) :
    (processValues pfx sink now st
      [(topic, ⟨.Faulting, t1⟩), (topic, ⟨.Clear, t2⟩), (topic, ⟨.Faulting, t3⟩)]).calls =
      [SinkCall.insert md.rack_id (build_leak_alert_report now md lt),
       SinkCall.remove md.rack_id,
       SinkCall.insert md.rack_id (build_leak_alert_report now md lt)] := by
  have hv1 : cacheGet st.value_state_cache path ≠
      some (⟨.Faulting, t1⟩ : ValueMessage).value := by
    rw [hv0]; exact fun h => by cases h
  simp only [processValues]
  rw [@handle_value_success pfx topic path sink now st ⟨.Faulting, t1⟩ md lt
    hE hm hlt hv1 (hok (sinkCallFor now md lt .Faulting))]
  dsimp only
  set st1 : ProcState :=
    { st with value_state_cache := cacheInsert st.value_state_cache path .Faulting }
    with hst1
  have hm2 : cacheGet st1.metadata_cache path = some md := hm
  have hv2 : cacheGet st1.value_state_cache path ≠
      some (⟨.Clear, t2⟩ : ValueMessage).value := by
    rw [hst1]
    dsimp only
    rw [cacheGet_insert_self]
    exact fun h => by cases h
  rw [@handle_value_success pfx topic path sink now st1 ⟨.Clear, t2⟩ md lt
    hE hm2 hlt hv2 (hok (sinkCallFor now md lt .Clear))]
  dsimp only
  set st2 : ProcState :=
    { st1 with value_state_cache := cacheInsert st1.value_state_cache path .Clear }
    with hst2
  have hm3 : cacheGet st2.metadata_cache path = some md := hm
  have hv3 : cacheGet st2.value_state_cache path ≠
      some (⟨.Faulting, t3⟩ : ValueMessage).value := by
    rw [hst2]
    dsimp only
    rw [cacheGet_insert_self]
    exact fun h => by cases h
  rw [@handle_value_success pfx topic path sink now st2 ⟨.Faulting, t3⟩ md lt
    hE hm3 hlt hv3 (hok (sinkCallFor now md lt .Faulting))]
  simp [sinkCallFor]

theorem transition_law_witness :
    (processValues "cronus/v1/" (fun _ => true) 0
      ⟨[("site/rack/point", ⟨"LeakDetectRack", "Rack", "Rack-rack-001", "rack-001"⟩)], []⟩
      [("cronus/v1/site/rack/point/Value", ⟨.Faulting, 1⟩),
       ("cronus/v1/site/rack/point/Value", ⟨.Clear, 2⟩),
       ("cronus/v1/site/rack/point/Value", ⟨.Faulting, 3⟩)]).calls =
      [SinkCall.insert "rack-001" (build_leak_alert_report 0
          ⟨"LeakDetectRack", "Rack", "Rack-rack-001", "rack-001"⟩ .LeakDetectRack),
       SinkCall.remove "rack-001",
       SinkCall.insert "rack-001" (build_leak_alert_report 0
          ⟨"LeakDetectRack", "Rack", "Rack-rack-001", "rack-001"⟩ .LeakDetectRack)] :=
  transition_law "cronus/v1/" "cronus/v1/site/rack/point/Value" "site/rack/point"
    (fun _ => true) 0
    ⟨[("site/rack/point", ⟨"LeakDetectRack", "Rack", "Rack-rack-001", "rack-001"⟩)], []⟩
    ⟨"LeakDetectRack", "Rack", "Rack-rack-001", "rack-001"⟩ .LeakDetectRack 1 2 3
    (fun _ => rfl) (by decide) (by decide) (by decide) (by decide)

/-- Strings whose shapes end in different last characters are never equal
(used to rule out a second suffix interpretation of one topic). -/
theorem append_ne_append_of_last_ne {a b c d : String} {c1 c2 : Char}
    (hb : b.data.getLast? = some c1) (hd : d.data.getLast? = some c2)
    (hne : c1 ≠ c2) : a ++ b ≠ c ++ d := by
  intro h
  have h1 : a.data ++ b.data = c.data ++ d.data := by
    rw [← String.data_append, ← String.data_append, h]
  have h2 := congrArg List.getLast? h1
  rw [List.getLast?_append, List.getLast?_append, hb, hd] at h2
  simp only [Option.or_some] at h2
  exact hne (by simpa using h2)

/-- C6: path extraction strips the suffix `"/Metadata"` or `"/Value"` and
then the configured prefix, returning the remainder, and fails iff the
topic has neither shape: `extract_point_path topic pfx = some p` exactly
when `topic = pfx ++ p ++ "/Metadata"` or `topic = pfx ++ p ++ "/Value"`.
In particular `"<pfx>site/rack/point/Value"` with prefix `"<pfx>"` extracts
`"site/rack/point"`, and any topic ending in `"/Unknown"` extracts
nothing. -/
theorem path_extraction_law :
    (∀ topic pfx p : String,
      extract_point_path topic pfx = some p ↔
        topic = pfx ++ p ++ "/Metadata" ∨ topic = pfx ++ p ++ "/Value") ∧
    (∀ pfx : String,
      extract_point_path (pfx ++ "site/rack/point/Value") pfx =
        some "site/rack/point") ∧
    (∀ t pfx : String, extract_point_path (t ++ "/Unknown") pfx = none) := by
  refine ⟨fun topic pfx p => extract_point_path_eq_some, fun pfx => ?_, fun t pfx => ?_⟩
  · refine extract_point_path_eq_some.mpr (Or.inr ?_)
    rw [String.append_assoc]
    rfl
  · cases h : extract_point_path (t ++ "/Unknown") pfx with
    | none => rfl
    | some p =>
      exfalso
      rcases extract_point_path_eq_some.mp h with h1 | h1
      · exact append_ne_append_of_last_ne
          (by decide : "/Unknown".data.getLast? = some 'n')
          (by decide : "/Metadata".data.getLast? = some 'a') (by decide) h1
      · exact append_ne_append_of_last_ne
          (by decide : "/Unknown".data.getLast? = some 'n')
          (by decide : "/Value".data.getLast? = some 'e') (by decide) h1

theorem path_extraction_law_witness :
    extract_point_path "cronus/v1/site/rack/point/Value" "cronus/v1/" =
      some "site/rack/point" :=
  path_extraction_law.2.1 "cronus/v1/"

/-- C7: decoding a `FaultValue` from a numeric wire value succeeds exactly
on integer 0 / float 0.0 (giving `Clear`) and integer 1 / float 1.0 (giving
`Faulting`); every other numeric input — e.g. integer 2 or float 0.5 — is a
decode error returned to the caller. -/
theorem decode_boundary_law :
    (∀ (w : WireNumber) (v : FaultValue),
      FaultValue.deserialize w = .ok v ↔
        ((w = .uint 0 ∨ w = .float 0) ∧ v = .Clear) ∨
        ((w = .uint 1 ∨ w = .float 1) ∧ v = .Faulting)) ∧
    (∃ e, FaultValue.deserialize (.uint 2) = .error e) ∧
    (∃ e, FaultValue.deserialize (.float (1/2)) = .error e) := by
  refine ⟨fun w v => ?_, ⟨_, rfl⟩, ?_⟩
  · cases w with
    | uint n =>
      rcases n with _ | _ | n <;> cases v <;>
        simp [FaultValue.deserialize]
    | float q =>
      by_cases hq0 : q = 0
      · subst hq0
        cases v <;> simp [FaultValue.deserialize]
      · by_cases hq1 : q = 1
        · subst hq1
          cases v <;> simp [FaultValue.deserialize]
        · cases v <;> simp [FaultValue.deserialize, hq0, hq1]
  · have h : FaultValue.deserialize (.float (1/2)) =
        .error ("invalid binary value: expected 0 or 1, got " ++
          toString (1/2 : Rat)) := by
      simp only [FaultValue.deserialize]
      rw [if_neg (by norm_num), if_neg (by norm_num)]
    exact ⟨_, h⟩

/-- A supported point type string always maps to a leak point type. -/
theorem exists_leak_point_type_of_supported (md : LeakMetadata)
    (h : md.is_supported_leak_type = true) :
    ∃ lt, md.leak_point_type = some lt := by
  unfold LeakMetadata.is_supported_leak_type at h
  simp only [Bool.or_eq_true, beq_iff_eq] at h
  unfold LeakMetadata.leak_point_type
  rcases h with (h | h) | h <;> rw [h]
  · exact ⟨.LeakDetectRack, rfl⟩
  · exact ⟨.LeakSensorFaultRack, rfl⟩
  · exact ⟨.LeakDetectRackTray, rfl⟩

/-- Invariant of the metadata cache: every stored entry has a supported
point type. -/
def MetaInv (st : ProcState) : Prop :=
  ∀ k md, cacheGet st.metadata_cache k = some md → md.is_supported_leak_type = true

theorem MetaInv_initState : MetaInv initState := by
  intro k md h
  simp [initState, cacheGet, List.lookup] at h

theorem MetaInv_handle_metadata {pfx topic : String} {st : ProcState}
    {md : LeakMetadata} (h : MetaInv st) :
    MetaInv (handle_metadata_message pfx st topic md) := by
  by_cases hs : md.is_supported_leak_type = true
  · cases hp : extract_point_path topic pfx with
    | none =>
      have hd : handle_metadata_message pfx st topic md = st := by
        unfold handle_metadata_message
        rw [if_neg (by simp [hs]), hp]
      rw [hd]
      exact h
    | some path =>
      have hd : handle_metadata_message pfx st topic md =
          { st with metadata_cache := cacheInsert st.metadata_cache path md } := by
        unfold handle_metadata_message
        rw [if_neg (by simp [hs]), hp]
      rw [hd]
      intro k md' hk
      dsimp only at hk
      rw [cacheGet_insert] at hk
      by_cases hkp : k = path
      · rw [if_pos hkp] at hk
        injection hk with hk
        rw [← hk]
        exact hs
      · rw [if_neg hkp] at hk
        exact h k md' hk
  · have hd : handle_metadata_message pfx st topic md = st := by
      simp [handle_metadata_message, hs]
    rw [hd]
    exact h

theorem MetaInv_handle_value {pfx topic : String} {sink : Sink} {now : Nat}
    {st : ProcState} {msg : ValueMessage} (h : MetaInv st) :
    MetaInv (handle_value_message pfx sink now st topic msg).state := by
  intro k md hk
  rw [handle_value_metadata_cache] at hk
  exact h k md hk

theorem MetaInv_runState (pfx : String) (sink : Sink) (now : Nat)
    (msgs : List MqttMessage) :
    ∀ st, MetaInv st → MetaInv (runState pfx sink now st msgs) := by
  induction msgs with
  | nil => exact fun st h => h
  | cons m rest ih =>
    intro st h
    cases m with
    | Metadata topic md => exact ih _ (MetaInv_handle_metadata h)
    | Value topic vm => exact ih _ (MetaInv_handle_value h)

theorem outcome_ne_unsupported_of_MetaInv {pfx : String} {sink : Sink}
    {now : Nat} {st : ProcState} (h : MetaInv st) (topic : String)
    (msg : ValueMessage) :
    (handle_value_message pfx sink now st topic msg).outcome ≠
      .unsupportedCached := by
  rcases hE : extract_point_path topic pfx with _ | path
  · rw [handle_value_noPath hE]
    exact fun hc => by cases hc
  · rcases hm : cacheGet st.metadata_cache path with _ | md
    · rw [handle_value_noMetadata hE hm]
      exact fun hc => by cases hc
    · obtain ⟨lt, hlt⟩ := exists_leak_point_type_of_supported md (h path md hm)
      by_cases hv : cacheGet st.value_state_cache path = some msg.value
      · rw [handle_value_dedup hE hm hlt hv]
        exact fun hc => by cases hc
      · by_cases hsk : sink (sinkCallFor now md lt msg.value) = true
        · rw [handle_value_success hE hm hlt hv hsk]
          exact fun hc => by cases hc
        · rw [handle_value_failure hE hm hlt hv (by simpa using hsk)]
          exact fun hc => by cases hc

/-- C10: after any run of the processor from its initial (empty) state,
every entry stored in the metadata cache has a supported point type, hence
its point type string maps to `some` leak point type, and the defensive
unsupported-cached-metadata drop branch of `handle_value_message` is
unreachable for any subsequent value message. -/
theorem metadata_cache_invariant (pfx : String) (sink : Sink) (now : Nat)
    (msgs : List MqttMessage) :
    MetaInv (runState pfx sink now initState msgs) ∧
    (∀ k md,
      cacheGet (runState pfx sink now initState msgs).metadata_cache k = some md →
      ∃ lt, md.leak_point_type = some lt) ∧
    (∀ topic msg,
      (handle_value_message pfx sink now (runState pfx sink now initState msgs)
        topic msg).outcome ≠ .unsupportedCached) := by
  have hInv := MetaInv_runState pfx sink now msgs initState MetaInv_initState
  exact ⟨hInv,
    fun k md hk => exists_leak_point_type_of_supported md (hInv k md hk),
    fun topic msg => outcome_ne_unsupported_of_MetaInv hInv topic msg⟩

theorem metadata_cache_invariant_witness :
    (handle_value_message "cronus/v1/" (fun _ => true) 0
      (runState "cronus/v1/" (fun _ => true) 0 initState
        [.Metadata "cronus/v1/site/rack/point/Metadata"
          ⟨"LeakDetectRack", "Rack", "Rack-rack-001", "rack-001"⟩])
      "cronus/v1/site/rack/point/Value" ⟨.Faulting, 0⟩).outcome ≠
      .unsupportedCached :=
  (metadata_cache_invariant "cronus/v1/" (fun _ => true) 0
    [.Metadata "cronus/v1/site/rack/point/Metadata"
      ⟨"LeakDetectRack", "Rack", "Rack-rack-001", "rack-001"⟩]).2.2
    "cronus/v1/site/rack/point/Value" ⟨.Faulting, 0⟩

end DsxConsumer
